import Mathlib

/-!
Verification of the strftime/strptime wrapper library.

The repository's own code (src/src/lib.rs) is a thin safe wrapper around the
four C time routines `gmtime_r`, `strftime`, `strptime` and `mktime`, whose
bodies are not part of the repository: only their `extern` declarations and
call sites are.  Following the project specification, those four routines are
modelled here from the spec's contracts (proleptic-Gregorian UTC calendar
arithmetic, directive-based rendering/parsing, the zero-length buffer-growth
convention and the `-1`/`tm_yday` sentinel protocol), while the two public
Rust functions `strftime_format` and `parse_strftime` are translated
statement by statement from src/src/lib.rs.

Machine integers are modelled as `Int` with explicit range conditions where
the code's behaviour depends on them (the `i64` result range for `mktime`'s
overflow check, the C `int` width for `gmtime_r`'s year field).  Rust
`String`/`&str` values are Lean `String`s; `CString::new`'s failure condition
(an interior NUL byte) is modelled by `containsNull`.
-/

set_option maxHeartbeats 4000000

namespace StrftimeWrapper

/-! ## Decimal digit strings -/

/-- The ASCII digit character for a value `d < 10` (`d = 10` and above is
never used; it falls back to `'9'`). -/
def digitChar (d : Nat) : Char :=
  match d with
  | 0 => '0' | 1 => '1' | 2 => '2' | 3 => '3' | 4 => '4'
  | 5 => '5' | 6 => '6' | 7 => '7' | 8 => '8' | _ => '9'

/-- Is `c` an ASCII decimal digit? -/
def isDig (c : Char) : Bool := 48 ≤ c.toNat && c.toNat ≤ 57

/-- Fuel-indexed decimal rendering (most significant digit first); the fuel
makes the recursion structural so that concrete inputs evaluate inside the
kernel. -/
def natToDigitsAux : Nat → Nat → List Char
  | 0, _ => []
  | fuel + 1, n =>
    if n < 10 then [digitChar n] else natToDigitsAux fuel (n / 10) ++ [digitChar (n % 10)]

/-- Decimal rendering of a natural number, most significant digit first. -/
def natToDigits (n : Nat) : List Char := natToDigitsAux (n + 1) n

/-- The value of a digit string (most significant digit first). -/
def digitsToNat (ds : List Char) : Nat := ds.foldl (fun a c => a * 10 + (c.toNat - 48)) 0

/-- Split off the maximal leading run of ASCII digits. -/
def takeDigits : List Char → List Char × List Char
  | [] => ([], [])
  | c :: rest =>
    if isDig c then
      let p := takeDigits rest
      (c :: p.1, p.2)
    else ([], c :: rest)

/-- Decimal rendering of `n` left-padded with `'0'` to at least `w` digits. -/
def padNat (w n : Nat) : List Char :=
  List.replicate (w - (natToDigits n).length) '0' ++ natToDigits n

/-- Signed decimal rendering, zero-padded to at least `w` digits (a minus
sign precedes the padded magnitude of a negative value). -/
def intPad (w : Nat) (n : Int) : List Char :=
  if n < 0 then '-' :: padNat w n.natAbs else padNat w n.toNat

/-- The number of bytes of the UTF-8 encoding of one character. -/
def charBytes (c : Char) : Nat :=
  if c.toNat < 128 then 1 else if c.toNat < 2048 then 2 else if c.toNat < 65536 then 3 else 4

/-- The UTF-8 byte length of a character list (Rust strings and the C
interface count bytes, not characters). -/
def utf8Len (l : List Char) : Nat := l.foldl (fun a c => a + charBytes c) 0

/-- The UTF-8 byte length of a string, as Rust's `str::len` returns it. -/
def byteLength (s : String) : Nat := utf8Len s.data

/-- Does the string contain an interior NUL byte?  This is exactly the
condition under which Rust's `CString::new` fails in src/src/lib.rs. -/
def containsNull (s : String) : Bool := s.data.any fun c => c.toNat == 0

/-! ## The C `tm` structure and the library's error type -/

/-- The C broken-down time structure as declared in src/src/lib.rs (the
`tm_zone : *mut c_char` pointer field carries no information in this library —
it is only ever null — and is omitted). -/
structure tm where
  tm_sec : Int
  tm_min : Int
  tm_hour : Int
  tm_mday : Int
  tm_mon : Int
  tm_year : Int
  tm_wday : Int
  tm_yday : Int
  tm_isdst : Int
  tm_gmtoff : Int
deriving DecidableEq

/-- The `Default` impl for `tm` in src/src/lib.rs: every field zero. -/
def tm.default : tm :=
  { tm_sec := 0, tm_min := 0, tm_hour := 0, tm_mday := 0, tm_mon := 0,
    tm_year := 0, tm_wday := 0, tm_yday := 0, tm_isdst := 0, tm_gmtoff := 0 }

/-- The library's error enum from src/src/lib.rs. -/
inductive Error where
  | TimestampToTmError
  | DateTimeParseError
  | TimestampOverflowError
  | FormatError
deriving DecidableEq

deriving instance DecidableEq for Except

/-! ## Calendar arithmetic (the platform conversion routines)

Modelled from the spec: the epoch/civil converters of §4.1–§4.2 operate on
the proleptic Gregorian calendar, fixed to UTC, with the standard leap-year
rule and correct behaviour on negative (pre-1970) inputs.  The conversion
between a day count (days since 1970-01-01) and a civil date is written with
a March-based year as in the well-known civil-calendar algorithms; the year
of era is located by the estimate `doe / 366` corrected upward by at most
one.  All divisions are Euclidean (`Int./` in Lean), which handles negative
values without the off-by-one pitfalls the spec warns about. -/

/-- Civil date `(year, month, day)` (month `1..12`, day `1..31`) of day
number `z` counted from the epoch 1970-01-01. -/
def civilFromDays (z : Int) : Int × Int × Int :=
  let z' := z + 719468
  let era := z' / 146097
  let doe := z' - era * 146097
  let y0 := doe / 366
  let yoe :=
    if 365 * (y0 + 1) + (y0 + 1) / 4 - (y0 + 1) / 100 ≤ doe ∧ y0 ≤ 398 then y0 + 1 else y0
  let doy := doe - (365 * yoe + yoe / 4 - yoe / 100)
  let mp := (5 * doy + 2) / 153
  let d := doy - (153 * mp + 2) / 5 + 1
  let m := mp + (if mp < 10 then 3 else -9)
  (yoe + era * 400 + (if m ≤ 2 then 1 else 0), m, d)

/-- Day number (days since 1970-01-01) of the civil date `(y, m, d)`; the
standard days-from-civil formula over a March-based year. -/
def daysFromCivil (y m d : Int) : Int :=
  let y' := y - (if m ≤ 2 then 1 else 0)
  let era := y' / 400
  let yoe := y' - era * 400
  let doy := (153 * (m + (if m > 2 then -3 else 9)) + 2) / 5 + d - 1
  let doe := yoe * 365 + yoe / 4 - yoe / 100 + doy
  era * 146097 + doe - 719468

/-- Lower bound of the C `int` width, for `gmtime_r`'s `tm_year` field. -/
def INT_MIN : Int := -(2 ^ 31)

/-- Upper bound of the C `int` width. -/
def INT_MAX : Int := 2 ^ 31 - 1

/-- Lower bound of the target signed 64-bit timestamp range. -/
def I64_MIN : Int := -(2 ^ 63)

/-- Upper bound of the target signed 64-bit timestamp range. -/
def I64_MAX : Int := 2 ^ 63 - 1

/-- Modelled from the spec (§4.1): the platform `gmtime_r`.  Decomposes a
timestamp into UTC civil time with all six primary fields and the two derived
fields (`tm_wday` with Sunday = 0, 1970-01-01 being a Thursday; `tm_yday`
0-indexed from Jan 1), and fails (returns null, here `none`) exactly when the
civil year does not fit the `tm_year` field's C `int` width. -/
def gmtime_r (timestamp : Int) : Option tm :=
  let days := timestamp / 86400
  let sod := timestamp % 86400
  let c := civilFromDays days
  if INT_MIN ≤ c.1 - 1900 ∧ c.1 - 1900 ≤ INT_MAX then
    some { tm_sec := sod % 60, tm_min := sod / 60 % 60, tm_hour := sod / 3600,
           tm_mday := c.2.2, tm_mon := c.2.1 - 1, tm_year := c.1 - 1900,
           tm_wday := (days + 4) % 7, tm_yday := days - daysFromCivil c.1 1 1,
           tm_isdst := 0, tm_gmtoff := 0 }
  else none

/-- Modelled from the spec (§4.2): the civil-to-epoch arithmetic underlying
`mktime`, with C `mktime`'s normalization of out-of-range fields (months roll
into adjacent years, day/hour/minute/second offsets are added linearly). -/
def mktimeCore (t : tm) : Int :=
  let y := 1900 + t.tm_year + t.tm_mon / 12
  let m := t.tm_mon % 12 + 1
  (daysFromCivil y m 1 + (t.tm_mday - 1)) * 86400 +
    t.tm_hour * 3600 + t.tm_min * 60 + t.tm_sec

/-- Modelled from the spec (§4.2): the platform `mktime` (UTC per §5/§6: the
core never consults the environment).  On success it returns the timestamp
and writes the normalized civil time — including the derived `tm_wday` and
`tm_yday` fields — back through its pointer argument (here: returns the
updated structure).  If the resulting timestamp would not fit the target
signed 64-bit width it returns the sentinel `-1` and does not touch the
structure. -/
def mktime (tmv : tm) : tm × Int :=
  let v := mktimeCore tmv
  if I64_MIN ≤ v ∧ v ≤ I64_MAX then
    let days := v / 86400
    let sod := v % 86400
    let c := civilFromDays days
    ({ tm_sec := sod % 60, tm_min := sod / 60 % 60, tm_hour := sod / 3600,
       tm_mday := c.2.2, tm_mon := c.2.1 - 1, tm_year := c.1 - 1900,
       tm_wday := (days + 4) % 7, tm_yday := days - daysFromCivil c.1 1 1,
       tm_isdst := tmv.tm_isdst, tm_gmtoff := tmv.tm_gmtoff }, v)
  else (tmv, -1)

/-! ## The renderer (`strftime`) and the parser (`strptime`) -/

/-- Modelled from the spec (§4.3): the output a successful `strftime` call
writes for one directive character.  `%Y` renders the year zero-padded to at
least four digits, `%m %d %H %M %S` render their two-digit fields, `%%` a
literal percent; an unsupported combination passes through literally. -/
def directiveChars (c : Char) (tmv : tm) : List Char :=
  match c with
  | 'Y' => intPad 4 (1900 + tmv.tm_year)
  | 'm' => intPad 2 (tmv.tm_mon + 1)
  | 'd' => intPad 2 tmv.tm_mday
  | 'H' => intPad 2 tmv.tm_hour
  | 'M' => intPad 2 tmv.tm_min
  | 'S' => intPad 2 tmv.tm_sec
  | '%' => ['%']
  | c => ['%', c]

/-- Modelled from the spec (§4.3): the full text a successful `strftime` call
produces — each `%`-directive substituted, every other byte copied literally
(a trailing lone `%` is copied literally). -/
def strftimeChars : List Char → tm → List Char
  | [], _ => []
  | '%' :: c :: rest, tmv => directiveChars c tmv ++ strftimeChars rest tmv
  | c :: rest, tmv => c :: strftimeChars rest tmv

/-- Modelled from the spec (§4.3): the platform `strftime`.  Returns the
number of bytes written (excluding the terminating NUL) when the formatted
text and its NUL terminator fit in `maxsize` bytes, and `0` otherwise — the
zero return is the only "buffer too small" signal, indistinguishable from a
legitimately empty output. -/
def strftime (maxsize : Nat) (format : String) (tmv : tm) : Nat :=
  let out := utf8Len (strftimeChars format.data tmv)
  if out + 1 ≤ maxsize then out else 0

/-- The buffer-growth loop of `strftime_format` (src/src/lib.rs lines
93-109): call `strftime`, and on a zero-length result double the buffer and
retry, otherwise truncate the buffer to the result and return it.  The
source loop has no bound, so it is modelled with explicit fuel; `none` means
the loop has not returned within `fuel` iterations. -/
def formatLoop (format : String) (tmv : tm) : Nat → Nat → Option String
  | 0, _ => none
  | fuel + 1, bufSize =>
    if strftime bufSize format tmv = 0 then formatLoop format tmv fuel (bufSize * 2)
    else some (String.mk (strftimeChars format.data tmv))

/-- The Rust `strftime_format` (src/src/lib.rs lines 82-110) run with the
given loop fuel: convert with `gmtime_r` (`TimestampToTmError` on null),
reject an interior NUL in the format (`FormatError`, from `CString::new`),
then run the buffer-growth loop starting from a buffer of the format's byte
length.  The successful buffer is UTF-8 (the model's strings always are), so
the final `String::from_utf8` step cannot fail here. -/
def strftime_formatFuel (fuel : Nat) (timestamp : Int) (format : String) :
    Option (Except Error String) :=
  match gmtime_r timestamp with
  | none => some (.error .TimestampToTmError)
  | some tmv =>
    if containsNull format then some (.error .FormatError)
    else
      match formatLoop format tmv fuel (byteLength format) with
      | none => none
      | some s => some (.ok s)

/-- The Rust `strftime_format`, with fuel sufficient for every terminating
run of the loop (`strftime_formatFuel_agree` below shows this instantiation
is exact: a run that returns on any fuel returns here with the same result,
so a `none` here is a run that terminates on no fuel at all). -/
def strftime_format (timestamp : Int) (format : String) : Option (Except Error String) :=
  match gmtime_r timestamp with
  | none => some (.error .TimestampToTmError)
  | some tmv =>
    if containsNull format then some (.error .FormatError)
    else
      match formatLoop format tmv (utf8Len (strftimeChars format.data tmv) + 2)
          (byteLength format) with
      | none => none
      | some s => some (.ok s)

/-- Modelled from the spec (§4.4): the directive walk of the platform
`strptime`.  Literal format bytes must match the text exactly; each numeric
directive consumes the maximal run of digits (failing on an empty run or a
value outside the directive's documented range: `%m` 1–12, `%d` 1–31, `%H`
0–23, `%M` 0–59, `%S` 0–60, `%Y` unconstrained) and stores the field;
`%%` matches a literal percent; an unsupported directive fails.  Returns the
accumulated fields and the unconsumed remainder of the text (the pointer a
successful C `strptime` returns). -/
def strptimeGo : List Char → List Char → tm → Option (tm × List Char)
  | [], text, tmv => some (tmv, text)
  | c :: fr, text, tmv =>
    if c = '%' then
      match fr with
      | [] =>
        match text with
        | t :: tr => if t = '%' then some (tmv, tr) else none
        | [] => none
      | d :: fr' =>
        if d = 'Y' then
          let p := takeDigits text
          if p.1 = [] then none
          else strptimeGo fr' p.2 { tmv with tm_year := (digitsToNat p.1 : Int) - 1900 }
        else if d = 'm' then
          let p := takeDigits text
          if p.1 = [] then none
          else if 1 ≤ digitsToNat p.1 ∧ digitsToNat p.1 ≤ 12 then
            strptimeGo fr' p.2 { tmv with tm_mon := (digitsToNat p.1 : Int) - 1 }
          else none
        else if d = 'd' then
          let p := takeDigits text
          if p.1 = [] then none
          else if 1 ≤ digitsToNat p.1 ∧ digitsToNat p.1 ≤ 31 then
            strptimeGo fr' p.2 { tmv with tm_mday := (digitsToNat p.1 : Int) }
          else none
        else if d = 'H' then
          let p := takeDigits text
          if p.1 = [] then none
          else if digitsToNat p.1 ≤ 23 then
            strptimeGo fr' p.2 { tmv with tm_hour := (digitsToNat p.1 : Int) }
          else none
        else if d = 'M' then
          let p := takeDigits text
          if p.1 = [] then none
          else if digitsToNat p.1 ≤ 59 then
            strptimeGo fr' p.2 { tmv with tm_min := (digitsToNat p.1 : Int) }
          else none
        else if d = 'S' then
          let p := takeDigits text
          if p.1 = [] then none
          else if digitsToNat p.1 ≤ 60 then
            strptimeGo fr' p.2 { tmv with tm_sec := (digitsToNat p.1 : Int) }
          else none
        else if d = '%' then
          match text with
          | t :: tr => if t = '%' then strptimeGo fr' tr tmv else none
          | [] => none
        else none
    else
      match text with
      | t :: tr => if t = c then strptimeGo fr tr tmv else none
      | [] => none

/-- Modelled from the spec (§4.4): the platform `strptime` under the spec's
matching policy — the walk must consume the whole text; trailing unconsumed
input is a parse failure.  The caller's structure (`tm::default()` at the
call site in src/src/lib.rs) supplies every field the format does not
mention. -/
def strptime (text format : String) (tmv : tm) : Option tm :=
  match strptimeGo format.data text.data tmv with
  | some (tmv', []) => some tmv'
  | _ => none

/-- The Rust `parse_strftime` (src/src/lib.rs lines 113-139): reject an
interior NUL in either argument (`FormatError`, from the two `CString::new`
calls, format first), run `strptime` from a zeroed `tm`
(`DateTimeParseError` on null), then set `tm_yday` to the sentinel `-1`,
call `mktime`, and classify the result as `TimestampOverflowError` exactly
when it is `-1` while `tm_yday` was left at the sentinel. -/
def parse_strftime (date_time format : String) : Except Error Int :=
  if containsNull format then .error .FormatError
  else if containsNull date_time then .error .FormatError
  else
    match strptime date_time format tm.default with
    | none => .error .DateTimeParseError
    | some tmv =>
      let r := mktime { tmv with tm_yday := -1 }
      if r.2 = -1 ∧ r.1.tm_yday = -1 then .error .TimestampOverflowError
      else .ok r.2

/-! ## Lemmas: decimal digit strings -/

theorem digitChar_toNat {d : Nat} (h : d < 10) : (digitChar d).toNat = 48 + d := by
  interval_cases d <;> rfl

theorem isDig_digitChar {d : Nat} (h : d < 10) : isDig (digitChar d) = true := by
  interval_cases d <;> rfl

theorem digitChar_toNat_ne_zero {d : Nat} (h : d < 10) : (digitChar d).toNat ≠ 0 := by
  interval_cases d <;> decide

theorem natToDigitsAux_all_dig (fuel n : Nat) :
    ∀ c ∈ natToDigitsAux fuel n, isDig c = true := by
  induction fuel generalizing n with
  | zero => intro c hc; simp [natToDigitsAux] at hc
  | succ fuel ih =>
    intro c hc
    rw [natToDigitsAux] at hc
    split at hc
    · next h =>
      simp only [List.mem_singleton] at hc
      exact hc ▸ isDig_digitChar h
    · next h =>
      rcases List.mem_append.mp hc with h' | h'
      · exact ih _ c h'
      · simp only [List.mem_singleton] at h'
        exact h' ▸ isDig_digitChar (Nat.mod_lt _ (by omega))

theorem natToDigits_all_dig (n : Nat) : ∀ c ∈ natToDigits n, isDig c = true :=
  natToDigitsAux_all_dig _ n

theorem digitsToNat_append_singleton (xs : List Char) (c : Char) :
    digitsToNat (xs ++ [c]) = digitsToNat xs * 10 + (c.toNat - 48) := by
  simp [digitsToNat, List.foldl_append]

theorem digitsToNat_natToDigitsAux (fuel n : Nat) (h : n < 10 ^ fuel) :
    digitsToNat (natToDigitsAux fuel n) = n := by
  induction fuel generalizing n with
  | zero =>
    have hn : n = 0 := by simpa using h
    simp [natToDigitsAux, digitsToNat, hn]
  | succ fuel ih =>
    rw [natToDigitsAux]
    split
    · next h' => simp [digitsToNat, digitChar_toNat h']
    · next h' =>
      rw [digitsToNat_append_singleton,
        ih (n / 10) (by rw [Nat.div_lt_iff_lt_mul (by omega)]; rw [pow_succ] at h; omega),
        digitChar_toNat (Nat.mod_lt _ (by omega))]
      omega

theorem digitsToNat_natToDigits (n : Nat) : digitsToNat (natToDigits n) = n := by
  refine digitsToNat_natToDigitsAux _ n ?_
  have h1 : n < 10 ^ n := Nat.lt_pow_self (by omega) n
  have h2 := Nat.pow_le_pow_right (show 0 < 10 by omega) (Nat.le_succ n)
  omega

theorem natToDigitsAux_ne_nil (fuel n : Nat) : natToDigitsAux (fuel + 1) n ≠ [] := by
  rw [natToDigitsAux]
  split
  · simp
  · simp

theorem natToDigits_ne_nil (n : Nat) : natToDigits n ≠ [] := natToDigitsAux_ne_nil _ n

theorem digitsToNat_replicate_zero (k : Nat) (ds : List Char) :
    digitsToNat (List.replicate k '0' ++ ds) = digitsToNat ds := by
  induction k with
  | zero => simp
  | succ k ih => simpa [digitsToNat, List.replicate_succ] using ih

theorem padNat_all_dig (w n : Nat) : ∀ c ∈ padNat w n, isDig c = true := by
  intro c hc
  rcases List.mem_append.mp hc with h | h
  · rw [List.eq_of_mem_replicate h]; rfl
  · exact natToDigits_all_dig n c h

theorem padNat_ne_nil (w n : Nat) : padNat w n ≠ [] := by
  intro h
  rcases List.append_eq_nil.mp h with ⟨-, h2⟩
  exact natToDigits_ne_nil n h2

theorem digitsToNat_padNat (w n : Nat) : digitsToNat (padNat w n) = n := by
  rw [padNat, digitsToNat_replicate_zero, digitsToNat_natToDigits]

theorem isDig_toNat_ne_zero {c : Char} (h : isDig c = true) : c.toNat ≠ 0 := by
  simp only [isDig, Bool.and_eq_true, decide_eq_true_eq] at h
  omega

/-- The head of the list (if any) is not a digit: under this condition
`takeDigits` splits a digit prefix off exactly. -/
def headNotDig : List Char → Prop
  | [] => True
  | c :: _ => isDig c = false

theorem takeDigits_split (ds rest : List Char) (hds : ∀ c ∈ ds, isDig c = true)
    (hrest : headNotDig rest) : takeDigits (ds ++ rest) = (ds, rest) := by
  induction ds with
  | nil =>
    cases rest with
    | nil => rfl
    | cons c r =>
      simp only [headNotDig] at hrest
      simp [takeDigits, hrest]
  | cons c ds ih =>
    have hc := hds c (by simp)
    simp only [List.cons_append, takeDigits, hc, if_true, List.append_eq]
    rw [ih fun c h => hds c (by simp [h])]

/-! ## Lemmas: calendar arithmetic -/

theorem civilFromDays_bounds (z : Int) :
    1 ≤ (civilFromDays z).2.1 ∧ (civilFromDays z).2.1 ≤ 12 ∧
    1 ≤ (civilFromDays z).2.2 ∧ (civilFromDays z).2.2 ≤ 31 := by
  simp only [civilFromDays]
  split_ifs <;> omega

theorem daysFromCivil_assemble (z era doe yoe doy : Int)
    (hz : z + 719468 = era * 146097 + doe)
    (hy0 : 0 ≤ yoe) (hy1 : yoe ≤ 399)
    (hdoy : doy = doe - (365 * yoe + yoe / 4 - yoe / 100))
    (hd0 : 0 ≤ doy) (hd1 : doy ≤ 365) :
    daysFromCivil
      (yoe + era * 400 +
        (if (5 * doy + 2) / 153 + (if (5 * doy + 2) / 153 < 10 then 3 else -9) ≤ 2 then 1 else 0))
      ((5 * doy + 2) / 153 + (if (5 * doy + 2) / 153 < 10 then 3 else -9))
      (doy - (153 * ((5 * doy + 2) / 153) + 2) / 5 + 1) = z := by
  simp only [daysFromCivil]
  split_ifs <;> omega

theorem yoe_facts (doe y0 : Int) (h0 : 0 ≤ doe) (h1 : doe < 146097) (hy0 : doe / 366 = y0) :
    let yoe := if 365 * (y0 + 1) + (y0 + 1) / 4 - (y0 + 1) / 100 ≤ doe ∧ y0 ≤ 398
      then y0 + 1 else y0
    0 ≤ yoe ∧ yoe ≤ 399 ∧ 0 ≤ doe - (365 * yoe + yoe / 4 - yoe / 100) ∧
      doe - (365 * yoe + yoe / 4 - yoe / 100) ≤ 365 := by
  intro yoe
  show 0 ≤ yoe ∧ _
  unfold yoe
  split_ifs <;> omega

/-- The two civil/day-number conversions are mutually inverse: converting a
day number to a civil date and back is the identity. -/
theorem daysFromCivil_civilFromDays (z : Int) :
    daysFromCivil (civilFromDays z).1 (civilFromDays z).2.1 (civilFromDays z).2.2 = z := by
  simp only [civilFromDays]
  generalize hA : (z + 719468) / 146097 = era
  generalize hB : z + 719468 - era * 146097 = doe
  have h0 : 0 ≤ doe := by omega
  have h1 : doe < 146097 := by omega
  have hz : z + 719468 = era * 146097 + doe := by omega
  generalize hC : doe / 366 = y0
  have hyf := yoe_facts doe y0 h0 h1 hC
  simp only at hyf
  generalize hD : (if 365 * (y0 + 1) + (y0 + 1) / 4 - (y0 + 1) / 100 ≤ doe ∧ y0 ≤ 398
      then y0 + 1 else y0) = yoe at hyf ⊢
  generalize hE : doe - (365 * yoe + yoe / 4 - yoe / 100) = doy at hyf ⊢
  obtain ⟨hy0, hy1, hd0, hd1⟩ := hyf
  exact daysFromCivil_assemble z era doe yoe doy hz hy0 hy1 hE.symm hd0 hd1

/-- The day-of-month enters `daysFromCivil` linearly. -/
theorem daysFromCivil_mday (y m d : Int) :
    daysFromCivil y m d = daysFromCivil y m 1 + (d - 1) := by
  simp only [daysFromCivil]
  split_ifs <;> ring

/-- Feeding the six primary civil fields of `gmtime_r t` back through the
civil-to-epoch arithmetic recovers `t`, whatever the derived and zone fields
hold. -/
theorem mktimeCore_inverse (t wday yday isdst gmtoff : Int) :
    mktimeCore
      { tm_sec := t % 86400 % 60, tm_min := t % 86400 / 60 % 60, tm_hour := t % 86400 / 3600,
        tm_mday := (civilFromDays (t / 86400)).2.2,
        tm_mon := (civilFromDays (t / 86400)).2.1 - 1,
        tm_year := (civilFromDays (t / 86400)).1 - 1900,
        tm_wday := wday, tm_yday := yday, tm_isdst := isdst, tm_gmtoff := gmtoff } = t := by
  have hb := civilFromDays_bounds (t / 86400)
  have hinv := daysFromCivil_civilFromDays (t / 86400)
  simp only [mktimeCore]
  have hy : 1900 + ((civilFromDays (t / 86400)).1 - 1900) +
      ((civilFromDays (t / 86400)).2.1 - 1) / 12 = (civilFromDays (t / 86400)).1 := by omega
  have hm : ((civilFromDays (t / 86400)).2.1 - 1) % 12 + 1 = (civilFromDays (t / 86400)).2.1 := by
    omega
  rw [hy, hm, ← daysFromCivil_mday, hinv]
  omega

/-! ## Lemmas: rendering -/

theorem intPad_of_nonneg {n : Int} (w : Nat) (h : 0 ≤ n) :
    intPad w n = padNat w n.toNat := by
  simp [intPad, not_lt.mpr h]

theorem intPad_ne_nil (w : Nat) (n : Int) : intPad w n ≠ [] := by
  unfold intPad
  split
  · simp
  · exact padNat_ne_nil _ _

theorem directiveChars_ne_nil (c : Char) (tmv : tm) : directiveChars c tmv ≠ [] := by
  unfold directiveChars
  split <;> first
    | exact intPad_ne_nil _ _
    | simp

theorem strftimeChars_dir (c : Char) (rest : List Char) (tmv : tm) :
    strftimeChars ('%' :: c :: rest) tmv = directiveChars c tmv ++ strftimeChars rest tmv := rfl

theorem strftimeChars_lit {c : Char} (hc : c ≠ '%') (rest : List Char) (tmv : tm) :
    strftimeChars (c :: rest) tmv = c :: strftimeChars rest tmv := by
  rw [strftimeChars.eq_def]
  split <;> simp_all

theorem strftimeChars_ne_nil (l : List Char) (hl : l ≠ []) (tmv : tm) :
    strftimeChars l tmv ≠ [] := by
  rcases l with - | ⟨c, rest⟩
  · exact absurd rfl hl
  · by_cases hc : c = '%'
    · subst hc
      rcases rest with - | ⟨c', rest'⟩
      · simp [strftimeChars]
      · rw [strftimeChars_dir]
        intro h
        rcases List.append_eq_nil.mp h with ⟨h1, -⟩
        exact directiveChars_ne_nil c' tmv h1
    · rw [strftimeChars_lit hc]
      simp

theorem charBytes_pos (c : Char) : 1 ≤ charBytes c := by
  unfold charBytes
  split_ifs <;> omega

theorem utf8Len_acc (l : List Char) (a : Nat) :
    l.foldl (fun a c => a + charBytes c) a = a + utf8Len l := by
  induction l generalizing a with
  | nil => simp [utf8Len]
  | cons c l ih => simp [utf8Len, List.foldl_cons, ih (a + charBytes c), ih (charBytes c)]; omega

theorem utf8Len_pos {l : List Char} (hl : l ≠ []) : 0 < utf8Len l := by
  rcases l with - | ⟨c, l⟩
  · exact absurd rfl hl
  · have := charBytes_pos c
    have := utf8Len_acc l (charBytes c)
    simp only [utf8Len, List.foldl_cons, Nat.zero_add] at *
    omega

theorem utf8Len_eq_nil {l : List Char} (h : utf8Len l = 0) : l = [] := by
  by_contra hne
  have := utf8Len_pos hne
  omega

theorem formatLoop_succeeds (f : String) (tmv : tm) (fuel b : Nat)
    (hL : 0 < utf8Len (strftimeChars f.data tmv))
    (hb : utf8Len (strftimeChars f.data tmv) + 1 ≤ b * 2 ^ fuel) :
    formatLoop f tmv (fuel + 1) b = some (String.mk (strftimeChars f.data tmv)) := by
  induction fuel generalizing b with
  | zero =>
    rw [formatLoop]
    simp only [pow_zero, Nat.mul_one] at hb
    have hz : strftime b f tmv ≠ 0 := by simp only [strftime, if_pos hb]; omega
    rw [if_neg hz]
  | succ fuel ih =>
    rw [formatLoop]
    by_cases hfit : utf8Len (strftimeChars f.data tmv) + 1 ≤ b
    · have hz : strftime b f tmv ≠ 0 := by simp only [strftime, if_pos hfit]; omega
      rw [if_neg hz]
    · have hlen : strftime b f tmv = 0 := by simp only [strftime, if_neg hfit]
      rw [if_pos hlen]
      refine ih (b * 2) ?_
      have hr : b * 2 ^ (fuel + 1) = b * 2 * 2 ^ fuel := by ring
      omega

theorem formatLoop_some_inv (f : String) (tmv : tm) (fuel b : Nat) (s : String)
    (h : formatLoop f tmv fuel b = some s) :
    s = String.mk (strftimeChars f.data tmv) ∧
      utf8Len (strftimeChars f.data tmv) ≠ 0 ∧ 1 ≤ b := by
  induction fuel generalizing b with
  | zero => simp [formatLoop] at h
  | succ fuel ih =>
    rw [formatLoop] at h
    by_cases hz : strftime b f tmv = 0
    · rw [if_pos hz] at h
      obtain ⟨h1, h2, h3⟩ := ih (b * 2) h
      exact ⟨h1, h2, by omega⟩
    · rw [if_neg hz] at h
      have hb : utf8Len (strftimeChars f.data tmv) + 1 ≤ b := by
        by_contra hfit
        exact hz (by simp only [strftime, if_neg hfit])
      have hL : utf8Len (strftimeChars f.data tmv) ≠ 0 := by
        intro h0
        exact hz (by simp [strftime, h0])
      exact ⟨(Option.some_inj.mp h).symm, hL, by omega⟩

/-! ## Lemmas: the parser's directive steps -/

theorem strptimeGo_step_Y (fr rest : List Char) (tmv : tm) (w v : Nat)
    (hrest : headNotDig rest) :
    strptimeGo ('%' :: 'Y' :: fr) (padNat w v ++ rest) tmv =
      strptimeGo fr rest { tmv with tm_year := (v : Int) - 1900 } := by
  have base : strptimeGo ('%' :: 'Y' :: fr) (padNat w v ++ rest) tmv =
      (if (takeDigits (padNat w v ++ rest)).1 = [] then none
       else strptimeGo fr (takeDigits (padNat w v ++ rest)).2
         { tmv with tm_year := (digitsToNat (takeDigits (padNat w v ++ rest)).1 : Int) - 1900 }) :=
    rfl
  rw [base, takeDigits_split _ _ (padNat_all_dig w v) hrest]
  simp only [if_neg (padNat_ne_nil w v), digitsToNat_padNat]

theorem strptimeGo_step_m (fr rest : List Char) (tmv : tm) (w v : Nat)
    (hrest : headNotDig rest) (hv : 1 ≤ v ∧ v ≤ 12) :
    strptimeGo ('%' :: 'm' :: fr) (padNat w v ++ rest) tmv =
      strptimeGo fr rest { tmv with tm_mon := (v : Int) - 1 } := by
  have base : strptimeGo ('%' :: 'm' :: fr) (padNat w v ++ rest) tmv =
      (if (takeDigits (padNat w v ++ rest)).1 = [] then none
       else if 1 ≤ digitsToNat (takeDigits (padNat w v ++ rest)).1 ∧
           digitsToNat (takeDigits (padNat w v ++ rest)).1 ≤ 12 then
         strptimeGo fr (takeDigits (padNat w v ++ rest)).2
           { tmv with tm_mon := (digitsToNat (takeDigits (padNat w v ++ rest)).1 : Int) - 1 }
       else none) := rfl
  rw [base, takeDigits_split _ _ (padNat_all_dig w v) hrest]
  simp only [if_neg (padNat_ne_nil w v), digitsToNat_padNat, if_pos hv]

theorem strptimeGo_step_d (fr rest : List Char) (tmv : tm) (w v : Nat)
    (hrest : headNotDig rest) (hv : 1 ≤ v ∧ v ≤ 31) :
    strptimeGo ('%' :: 'd' :: fr) (padNat w v ++ rest) tmv =
      strptimeGo fr rest { tmv with tm_mday := (v : Int) } := by
  have base : strptimeGo ('%' :: 'd' :: fr) (padNat w v ++ rest) tmv =
      (if (takeDigits (padNat w v ++ rest)).1 = [] then none
       else if 1 ≤ digitsToNat (takeDigits (padNat w v ++ rest)).1 ∧
           digitsToNat (takeDigits (padNat w v ++ rest)).1 ≤ 31 then
         strptimeGo fr (takeDigits (padNat w v ++ rest)).2
           { tmv with tm_mday := (digitsToNat (takeDigits (padNat w v ++ rest)).1 : Int) }
       else none) := rfl
  rw [base, takeDigits_split _ _ (padNat_all_dig w v) hrest]
  simp only [if_neg (padNat_ne_nil w v), digitsToNat_padNat, if_pos hv]

theorem strptimeGo_step_H (fr rest : List Char) (tmv : tm) (w v : Nat)
    (hrest : headNotDig rest) (hv : v ≤ 23) :
    strptimeGo ('%' :: 'H' :: fr) (padNat w v ++ rest) tmv =
      strptimeGo fr rest { tmv with tm_hour := (v : Int) } := by
  have base : strptimeGo ('%' :: 'H' :: fr) (padNat w v ++ rest) tmv =
      (if (takeDigits (padNat w v ++ rest)).1 = [] then none
       else if digitsToNat (takeDigits (padNat w v ++ rest)).1 ≤ 23 then
         strptimeGo fr (takeDigits (padNat w v ++ rest)).2
           { tmv with tm_hour := (digitsToNat (takeDigits (padNat w v ++ rest)).1 : Int) }
       else none) := rfl
  rw [base, takeDigits_split _ _ (padNat_all_dig w v) hrest]
  simp only [if_neg (padNat_ne_nil w v), digitsToNat_padNat, if_pos hv]

theorem strptimeGo_step_M (fr rest : List Char) (tmv : tm) (w v : Nat)
    (hrest : headNotDig rest) (hv : v ≤ 59) :
    strptimeGo ('%' :: 'M' :: fr) (padNat w v ++ rest) tmv =
      strptimeGo fr rest { tmv with tm_min := (v : Int) } := by
  have base : strptimeGo ('%' :: 'M' :: fr) (padNat w v ++ rest) tmv =
      (if (takeDigits (padNat w v ++ rest)).1 = [] then none
       else if digitsToNat (takeDigits (padNat w v ++ rest)).1 ≤ 59 then
         strptimeGo fr (takeDigits (padNat w v ++ rest)).2
           { tmv with tm_min := (digitsToNat (takeDigits (padNat w v ++ rest)).1 : Int) }
       else none) := rfl
  rw [base, takeDigits_split _ _ (padNat_all_dig w v) hrest]
  simp only [if_neg (padNat_ne_nil w v), digitsToNat_padNat, if_pos hv]

theorem strptimeGo_step_S (fr rest : List Char) (tmv : tm) (w v : Nat)
    (hrest : headNotDig rest) (hv : v ≤ 60) :
    strptimeGo ('%' :: 'S' :: fr) (padNat w v ++ rest) tmv =
      strptimeGo fr rest { tmv with tm_sec := (v : Int) } := by
  have base : strptimeGo ('%' :: 'S' :: fr) (padNat w v ++ rest) tmv =
      (if (takeDigits (padNat w v ++ rest)).1 = [] then none
       else if digitsToNat (takeDigits (padNat w v ++ rest)).1 ≤ 60 then
         strptimeGo fr (takeDigits (padNat w v ++ rest)).2
           { tmv with tm_sec := (digitsToNat (takeDigits (padNat w v ++ rest)).1 : Int) }
       else none) := rfl
  rw [base, takeDigits_split _ _ (padNat_all_dig w v) hrest]
  simp only [if_neg (padNat_ne_nil w v), digitsToNat_padNat, if_pos hv]

theorem strptimeGo_lit_dash (fr tr : List Char) (tmv : tm) :
    strptimeGo ('-' :: fr) ('-' :: tr) tmv = strptimeGo fr tr tmv := by
  conv_lhs => rw [strptimeGo.eq_def]
  rfl

theorem strptimeGo_lit_space (fr tr : List Char) (tmv : tm) :
    strptimeGo (' ' :: fr) (' ' :: tr) tmv = strptimeGo fr tr tmv := by
  conv_lhs => rw [strptimeGo.eq_def]
  rfl

theorem strptimeGo_lit_colon (fr tr : List Char) (tmv : tm) :
    strptimeGo (':' :: fr) (':' :: tr) tmv = strptimeGo fr tr tmv := by
  conv_lhs => rw [strptimeGo.eq_def]
  rfl

/-- Parsing a rendered `"%Y-%m-%d %H:%M:%S"` text assigns exactly the six
rendered field values over the caller-supplied structure and consumes the
whole text. -/
theorem strptimeGo_fixed (init : tm) (wY wM wD wH wMi wS Y M D H Mi S : Nat)
    (hM : 1 ≤ M ∧ M ≤ 12) (hD : 1 ≤ D ∧ D ≤ 31) (hH : H ≤ 23) (hMi : Mi ≤ 59) (hS : S ≤ 60) :
    strptimeGo ['%', 'Y', '-', '%', 'm', '-', '%', 'd', ' ', '%', 'H', ':', '%', 'M', ':', '%', 'S']
      (padNat wY Y ++ '-' :: (padNat wM M ++ '-' :: (padNat wD D ++ ' ' ::
        (padNat wH H ++ ':' :: (padNat wMi Mi ++ ':' :: padNat wS S))))) init =
    some ({ init with
              tm_year := (Y : Int) - 1900, tm_mon := (M : Int) - 1,
              tm_mday := (D : Int), tm_hour := (H : Int), tm_min := (Mi : Int),
              tm_sec := (S : Int) }, []) := by
  rw [strptimeGo_step_Y _ _ _ _ _ (by exact rfl), strptimeGo_lit_dash,
    strptimeGo_step_m _ _ _ _ _ (by exact rfl) hM, strptimeGo_lit_dash,
    strptimeGo_step_d _ _ _ _ _ (by exact rfl) hD, strptimeGo_lit_space,
    strptimeGo_step_H _ _ _ _ _ (by exact rfl) hH, strptimeGo_lit_colon,
    strptimeGo_step_M _ _ _ _ _ (by exact rfl) hMi, strptimeGo_lit_colon]
  rw [show (padNat wS S : List Char) = padNat wS S ++ [] from (List.append_nil _).symm,
    strptimeGo_step_S _ _ _ _ _ (show headNotDig [] from trivial) hS]
  rfl

/-- Rendering `"%Y-%m-%d %H:%M:%S"` for a structure whose rendered fields
are all nonnegative produces the zero-padded digit fields joined by the
format's literal separators. -/
theorem strftimeChars_fixed (tmv : tm) (hY : 0 ≤ 1900 + tmv.tm_year)
    (hM : 0 ≤ tmv.tm_mon + 1) (hD : 0 ≤ tmv.tm_mday) (hH : 0 ≤ tmv.tm_hour)
    (hMi : 0 ≤ tmv.tm_min) (hS : 0 ≤ tmv.tm_sec) :
    strftimeChars ("%Y-%m-%d %H:%M:%S".data) tmv =
      padNat 4 (1900 + tmv.tm_year).toNat ++ '-' :: (padNat 2 (tmv.tm_mon + 1).toNat ++ '-' ::
        (padNat 2 tmv.tm_mday.toNat ++ ' ' :: (padNat 2 tmv.tm_hour.toNat ++ ':' ::
          (padNat 2 tmv.tm_min.toNat ++ ':' :: padNat 2 tmv.tm_sec.toNat)))) := by
  have base : strftimeChars ("%Y-%m-%d %H:%M:%S".data) tmv =
      intPad 4 (1900 + tmv.tm_year) ++ '-' :: (intPad 2 (tmv.tm_mon + 1) ++ '-' ::
        (intPad 2 tmv.tm_mday ++ ' ' :: (intPad 2 tmv.tm_hour ++ ':' ::
          (intPad 2 tmv.tm_min ++ ':' :: (intPad 2 tmv.tm_sec ++ []))))) := rfl
  rw [base, intPad_of_nonneg _ hY, intPad_of_nonneg _ hM, intPad_of_nonneg _ hD,
    intPad_of_nonneg _ hH, intPad_of_nonneg _ hMi, intPad_of_nonneg _ hS, List.append_nil]

/-! ## Lemmas: evaluating the public operations symbolically -/

theorem gmtime_r_inv (t : Int) (tmv : tm) (h : gmtime_r t = some tmv) :
    tmv.tm_sec = t % 86400 % 60 ∧ tmv.tm_min = t % 86400 / 60 % 60 ∧
    tmv.tm_hour = t % 86400 / 3600 ∧ tmv.tm_mday = (civilFromDays (t / 86400)).2.2 ∧
    tmv.tm_mon = (civilFromDays (t / 86400)).2.1 - 1 ∧
    tmv.tm_year = (civilFromDays (t / 86400)).1 - 1900 := by
  simp only [gmtime_r] at h
  split at h
  · obtain rfl := Option.some_inj.mp h
    exact ⟨rfl, rfl, rfl, rfl, rfl, rfl⟩
  · exact Option.noConfusion h

/-- `mktimeCore` recovers the timestamp from any structure whose six primary
fields carry the civil decomposition of `t`. -/
theorem mktimeCore_eval (u : tm) (t : Int)
    (hsec : u.tm_sec = t % 86400 % 60) (hmin : u.tm_min = t % 86400 / 60 % 60)
    (hhour : u.tm_hour = t % 86400 / 3600)
    (hmday : u.tm_mday = (civilFromDays (t / 86400)).2.2)
    (hmon : u.tm_mon = (civilFromDays (t / 86400)).2.1 - 1)
    (hyear : u.tm_year = (civilFromDays (t / 86400)).1 - 1900) :
    mktimeCore u = t := by
  have hb := civilFromDays_bounds (t / 86400)
  have hinv := daysFromCivil_civilFromDays (t / 86400)
  simp only [mktimeCore, hsec, hmin, hhour, hmday, hmon, hyear]
  have hy : 1900 + ((civilFromDays (t / 86400)).1 - 1900) +
      ((civilFromDays (t / 86400)).2.1 - 1) / 12 = (civilFromDays (t / 86400)).1 := by omega
  have hm : ((civilFromDays (t / 86400)).2.1 - 1) % 12 + 1 = (civilFromDays (t / 86400)).2.1 := by
    omega
  rw [hy, hm, ← daysFromCivil_mday, hinv]
  omega

theorem mktime_eval (u : tm) (t : Int) (hcore : mktimeCore u = t)
    (hlo : I64_MIN ≤ t) (hhi : t ≤ I64_MAX) :
    mktime u =
      ({ tm_sec := t % 86400 % 60, tm_min := t % 86400 / 60 % 60,
         tm_hour := t % 86400 / 3600,
         tm_mday := (civilFromDays (t / 86400)).2.2,
         tm_mon := (civilFromDays (t / 86400)).2.1 - 1,
         tm_year := (civilFromDays (t / 86400)).1 - 1900,
         tm_wday := (t / 86400 + 4) % 7,
         tm_yday := t / 86400 - daysFromCivil (civilFromDays (t / 86400)).1 1 1,
         tm_isdst := u.tm_isdst, tm_gmtoff := u.tm_gmtoff }, t) := by
  simp only [mktime, hcore, if_pos (And.intro hlo hhi)]

/-- The fixed-fuel `strftime_format` is a sound reification of the
fuel-indexed family: a loop run that returns on any fuel returns on the
chosen fuel with the same result. -/
theorem strftime_formatFuel_agree (fuel : Nat) (t : Int) (f : String)
    (r : Except Error String) (h : strftime_formatFuel fuel t f = some r) :
    strftime_format t f = some r := by
  cases hg : gmtime_r t with
  | none =>
    simp only [strftime_formatFuel, hg] at h
    simp only [strftime_format, hg, h]
  | some tmv =>
    cases hcn : containsNull f with
    | true =>
      simp only [strftime_formatFuel, hg, hcn, eq_self_iff_true, if_true] at h
      simp only [strftime_format, hg, hcn, eq_self_iff_true, if_true, h]
    | false =>
      simp only [strftime_formatFuel, hg, hcn, Bool.false_eq_true, if_false] at h
      simp only [strftime_format, hg, hcn, Bool.false_eq_true, if_false]
      cases hloop : formatLoop f tmv fuel (byteLength f) with
      | none =>
        simp only [hloop] at h
        exact Option.noConfusion h
      | some s =>
        simp only [hloop] at h
        obtain ⟨hmk, hL, hb⟩ := formatLoop_some_inv _ _ _ _ _ hloop
        have hfit : utf8Len (strftimeChars f.data tmv) + 1 ≤
            byteLength f * 2 ^ (utf8Len (strftimeChars f.data tmv) + 1) := by
          have h2p : utf8Len (strftimeChars f.data tmv) + 1 <
              2 ^ (utf8Len (strftimeChars f.data tmv) + 1) := Nat.lt_two_pow _
          have hmul : 2 ^ (utf8Len (strftimeChars f.data tmv) + 1) ≤
              byteLength f * 2 ^ (utf8Len (strftimeChars f.data tmv) + 1) :=
            Nat.le_mul_of_pos_left _ (by omega)
          omega
        have hloop2 := formatLoop_succeeds f tmv (utf8Len (strftimeChars f.data tmv) + 1)
          (byteLength f) (by omega) hfit
        simp only [hloop2]
        rw [← hmk]
        exact h

/-- A successful `gmtime_r` makes `strftime_format` return the rendered text
(the buffer-growth loop exits within the chosen fuel). -/
theorem strftime_format_eval (t : Int) (tmv : tm) (f : String) (hg : gmtime_r t = some tmv)
    (hnull : containsNull f = false) (hne : f.data ≠ []) :
    strftime_format t f = some (.ok (String.mk (strftimeChars f.data tmv))) := by
  have hLpos : 0 < utf8Len (strftimeChars f.data tmv) :=
    utf8Len_pos (strftimeChars_ne_nil _ hne _)
  have hbpos : 0 < byteLength f := utf8Len_pos hne
  have hfit : utf8Len (strftimeChars f.data tmv) + 1 ≤
      byteLength f * 2 ^ (utf8Len (strftimeChars f.data tmv) + 1) := by
    have h2p : utf8Len (strftimeChars f.data tmv) + 1 <
        2 ^ (utf8Len (strftimeChars f.data tmv) + 1) := Nat.lt_two_pow _
    have hmul : 2 ^ (utf8Len (strftimeChars f.data tmv) + 1) ≤
        byteLength f * 2 ^ (utf8Len (strftimeChars f.data tmv) + 1) :=
      Nat.le_mul_of_pos_left _ hbpos
    omega
  have hloop := formatLoop_succeeds f tmv (utf8Len (strftimeChars f.data tmv) + 1)
    (byteLength f) hLpos hfit
  simp only [strftime_format, hg, hnull, Bool.false_eq_true, if_false, hloop]

theorem any_null_padNat (w n : Nat) : (padNat w n).any (fun c => c.toNat == 0) = false := by
  rw [List.any_eq_false]
  intro c hc
  have h := isDig_toNat_ne_zero (padNat_all_dig w n c hc)
  simpa using h

/-- A successful parse whose civil-to-epoch conversion lands in range and is
not the sentinel value returns the converted timestamp. -/
theorem parse_tail (s f : String) (hnf : containsNull f = false)
    (hns : containsNull s = false) (tmP : tm) (hps : strptime s f tm.default = some tmP)
    (t : Int) (hcore : mktimeCore { tmP with tm_yday := -1 } = t)
    (hlo : I64_MIN ≤ t) (hhi : t ≤ I64_MAX) (hne : t ≠ -1) :
    parse_strftime s f = .ok t := by
  rw [parse_strftime, if_neg (by rw [hnf]; exact Bool.false_ne_true),
    if_neg (by rw [hns]; exact Bool.false_ne_true), hps]
  have hmk := mktime_eval { tmP with tm_yday := -1 } t hcore hlo hhi
  simp only [hmk]
  exact if_neg (fun h => hne (And.left h))

/-- C1 (amended): formatting a timestamp with `"%Y-%m-%d %H:%M:%S"` and
parsing the result with the same format returns exactly the timestamp, for
every timestamp in the signed 64-bit range whose civil decomposition fits the
civil-time field widths and whose civil year is nonnegative (a negative year
renders with a minus sign, which the parser's digit-run directives reject). -/
theorem c1_round_trip_nonneg_year (t : Int) (tmv : tm)
    (hlo : I64_MIN ≤ t) (hhi : t ≤ I64_MAX)
    (hg : gmtime_r t = some tmv) (hy : 0 ≤ 1900 + tmv.tm_year) (s : String)
    (hs : strftime_format t "%Y-%m-%d %H:%M:%S" = some (.ok s)) :
    parse_strftime s "%Y-%m-%d %H:%M:%S" = .ok t := by
  by_cases ht : t = -1
  · subst ht
    have hgc : gmtime_r (-1) = some ⟨59, 59, 23, 31, 11, 69, 3, 364, 0, 0⟩ := by decide
    rw [hgc] at hg
    obtain rfl := Option.some_inj.mp hg
    have hsc : strftime_format (-1) "%Y-%m-%d %H:%M:%S" =
        some (.ok "1969-12-31 23:59:59") := by decide
    rw [hsc] at hs
    have hs' : ("1969-12-31 23:59:59" : String) = s := by simpa using hs
    subst hs'
    decide
  · obtain ⟨hsec, hmin, hhour, hmday, hmon, hyear⟩ := gmtime_r_inv t tmv hg
    have hb := civilFromDays_bounds (t / 86400)
    have hsod0 : 0 ≤ t % 86400 := by omega
    have hsod1 : t % 86400 < 86400 := by omega
    rw [strftime_format_eval t tmv "%Y-%m-%d %H:%M:%S" hg rfl (by decide)] at hs
    have hs' : String.mk (strftimeChars ("%Y-%m-%d %H:%M:%S").data tmv) = s := by
      simpa using hs
    subst hs'
    have hout := strftimeChars_fixed tmv (by omega) (by omega) (by omega) (by omega)
      (by omega) (by omega)
    rw [hout]
    have hnullS : containsNull (String.mk
        (padNat 4 (1900 + tmv.tm_year).toNat ++ '-' :: (padNat 2 (tmv.tm_mon + 1).toNat ++ '-' ::
          (padNat 2 tmv.tm_mday.toNat ++ ' ' :: (padNat 2 tmv.tm_hour.toNat ++ ':' ::
            (padNat 2 tmv.tm_min.toNat ++ ':' :: padNat 2 tmv.tm_sec.toNat)))))) = false := by
      simp only [containsNull, List.any_append, List.any_cons, any_null_padNat,
        show (('-' : Char).toNat == 0) = false from rfl,
        show ((' ' : Char).toNat == 0) = false from rfl,
        show (((':') : Char).toNat == 0) = false from rfl, Bool.or_self, Bool.or_false,
        Bool.false_or]
    have hps : strptime (String.mk
        (padNat 4 (1900 + tmv.tm_year).toNat ++ '-' :: (padNat 2 (tmv.tm_mon + 1).toNat ++ '-' ::
          (padNat 2 tmv.tm_mday.toNat ++ ' ' :: (padNat 2 tmv.tm_hour.toNat ++ ':' ::
            (padNat 2 tmv.tm_min.toNat ++ ':' :: padNat 2 tmv.tm_sec.toNat))))))
        "%Y-%m-%d %H:%M:%S" tm.default =
        some { tm.default with
                 tm_year := ((1900 + tmv.tm_year).toNat : Int) - 1900,
                 tm_mon := ((tmv.tm_mon + 1).toNat : Int) - 1,
                 tm_mday := (tmv.tm_mday.toNat : Int),
                 tm_hour := (tmv.tm_hour.toNat : Int),
                 tm_min := (tmv.tm_min.toNat : Int),
                 tm_sec := (tmv.tm_sec.toNat : Int) } := by
      rw [strptime,
        show ("%Y-%m-%d %H:%M:%S" : String).data =
          ['%', 'Y', '-', '%', 'm', '-', '%', 'd', ' ', '%', 'H', ':', '%', 'M', ':', '%', 'S']
          from rfl,
        show (String.mk
          (padNat 4 (1900 + tmv.tm_year).toNat ++ '-' :: (padNat 2 (tmv.tm_mon + 1).toNat ++ '-' ::
            (padNat 2 tmv.tm_mday.toNat ++ ' ' :: (padNat 2 tmv.tm_hour.toNat ++ ':' ::
              (padNat 2 tmv.tm_min.toNat ++ ':' :: padNat 2 tmv.tm_sec.toNat)))))).data =
          padNat 4 (1900 + tmv.tm_year).toNat ++ '-' :: (padNat 2 (tmv.tm_mon + 1).toNat ++ '-' ::
            (padNat 2 tmv.tm_mday.toNat ++ ' ' :: (padNat 2 tmv.tm_hour.toNat ++ ':' ::
              (padNat 2 tmv.tm_min.toNat ++ ':' :: padNat 2 tmv.tm_sec.toNat)))) from rfl,
        strptimeGo_fixed tm.default 4 2 2 2 2 2 _ _ _ _ _ _
          (by omega) (by omega) (by omega) (by omega) (by omega)]
    have hcore : mktimeCore
        { ({ tm.default with
              tm_year := ((1900 + tmv.tm_year).toNat : Int) - 1900,
              tm_mon := ((tmv.tm_mon + 1).toNat : Int) - 1,
              tm_mday := (tmv.tm_mday.toNat : Int),
              tm_hour := (tmv.tm_hour.toNat : Int),
              tm_min := (tmv.tm_min.toNat : Int),
              tm_sec := (tmv.tm_sec.toNat : Int) } : tm) with tm_yday := -1 } = t := by
      refine mktimeCore_eval _ t ?_ ?_ ?_ ?_ ?_ ?_
      · show ((tmv.tm_sec.toNat : Int)) = t % 86400 % 60
        omega
      · show ((tmv.tm_min.toNat : Int)) = t % 86400 / 60 % 60
        omega
      · show ((tmv.tm_hour.toNat : Int)) = t % 86400 / 3600
        omega
      · show ((tmv.tm_mday.toNat : Int)) = (civilFromDays (t / 86400)).2.2
        omega
      · show ((tmv.tm_mon + 1).toNat : Int) - 1 = (civilFromDays (t / 86400)).2.1 - 1
        omega
      · show ((1900 + tmv.tm_year).toNat : Int) - 1900 = (civilFromDays (t / 86400)).1 - 1900
        omega
    exact parse_tail _ "%Y-%m-%d %H:%M:%S" rfl hnullS _ hps t hcore hlo hhi ht

/-- With an empty rendered output the loop's `strftime` call returns `0` at
every buffer size, so the loop never exits. -/
theorem formatLoop_none (f : String) (tmv : tm)
    (hL : utf8Len (strftimeChars f.data tmv) = 0) (fuel b : Nat) :
    formatLoop f tmv fuel b = none := by
  induction fuel generalizing b with
  | zero => rfl
  | succ fuel ih =>
    rw [formatLoop]
    have hz : strftime b f tmv = 0 := by simp [strftime, hL]
    rw [if_pos hz]
    exact ih (b * 2)

/-- C6 (amended): for every timestamp and every valid, nonempty format
string, the buffer-growth loop terminates — some finite fuel makes the
fuel-indexed `strftime_format` return a value. -/
theorem c6_loop_terminates_nonempty (t : Int) (f : String)
    (hnull : containsNull f = false) (hne : f ≠ "") :
    ∃ fuel r, strftime_formatFuel fuel t f = some r := by
  cases hg : gmtime_r t with
  | none => exact ⟨1, .error .TimestampToTmError, by simp [strftime_formatFuel, hg]⟩
  | some tmv =>
    have hdata : f.data ≠ [] := by
      intro h
      exact hne (String.ext (h.trans rfl))
    have hL : 0 < utf8Len (strftimeChars f.data tmv) :=
      utf8Len_pos (strftimeChars_ne_nil _ hdata _)
    have hb : 0 < byteLength f := utf8Len_pos hdata
    have hfit : utf8Len (strftimeChars f.data tmv) + 1 ≤
        byteLength f * 2 ^ (utf8Len (strftimeChars f.data tmv) + 1) := by
      have h2p : utf8Len (strftimeChars f.data tmv) + 1 <
          2 ^ (utf8Len (strftimeChars f.data tmv) + 1) := Nat.lt_two_pow _
      have hmul : 2 ^ (utf8Len (strftimeChars f.data tmv) + 1) ≤
          byteLength f * 2 ^ (utf8Len (strftimeChars f.data tmv) + 1) :=
        Nat.le_mul_of_pos_left _ hb
      omega
    have hloop := formatLoop_succeeds f tmv (utf8Len (strftimeChars f.data tmv) + 1)
      (byteLength f) hL hfit
    exact ⟨utf8Len (strftimeChars f.data tmv) + 2,
      .ok (String.mk (strftimeChars f.data tmv)),
      by simp [strftime_formatFuel, hg, hnull, hloop]⟩

/-- Closed instance of the amended C6 statement at a concrete input. -/
theorem c6_loop_terminates_witness :
    ∃ fuel r, strftime_formatFuel fuel 0 "%Y" = some r :=
  c6_loop_terminates_nonempty 0 "%Y" (by decide) (by decide)

/-- C6 (counterexample to the claim as stated): on the empty format string —
valid text with no interior NUL — the loop starts from a zero-sized buffer,
doubling leaves it at zero, `strftime` reports `0` forever, and the call
never returns: no amount of fuel produces a result. -/
theorem c6_counterexample :
    containsNull "" = false ∧ strftime_format 0 "" = none ∧
      ∀ fuel, strftime_formatFuel fuel 0 "" = none := by
  refine ⟨rfl, by decide, fun fuel => ?_⟩
  have hg : gmtime_r 0 = some ⟨0, 0, 0, 1, 0, 70, 4, 0, 0, 0⟩ := by decide
  simp [strftime_formatFuel, hg, formatLoop_none "" _ rfl,
    show containsNull "" = false from rfl]

/-- C10: a successful formatting result is never the empty string — the loop
only exits on a nonzero `strftime` length. -/
theorem c10_ok_nonempty (t : Int) (f s : String)
    (h : strftime_format t f = some (.ok s)) : s ≠ "" := by
  cases hg : gmtime_r t with
  | none =>
    simp only [strftime_format, hg] at h
    exact absurd (Option.some_inj.mp h) (by simp)
  | some tmv =>
    cases hcn : containsNull f with
    | true =>
      simp only [strftime_format, hg, hcn, eq_self_iff_true, if_true] at h
      exact absurd (Option.some_inj.mp h) (by simp)
    | false =>
      simp only [strftime_format, hg, hcn, Bool.false_eq_true, if_false] at h
      cases hloop : formatLoop f tmv (utf8Len (strftimeChars f.data tmv) + 2)
          (byteLength f) with
      | none =>
        simp only [hloop] at h
        exact Option.noConfusion h
      | some s' =>
        simp only [hloop] at h
        obtain ⟨hmk, hL, -⟩ := formatLoop_some_inv _ _ _ _ _ hloop
        have hss : s = s' := by simpa using h.symm
        subst hss hmk
        intro hempty
        apply hL
        have hdata : strftimeChars f.data tmv = [] := congrArg String.data hempty
        rw [hdata]
        rfl

/-- Closed instance of C10 at a concrete input. -/
theorem c10_witness : (("1970-01-01 00:00:00" : String) = "") = False :=
  eq_false (c10_ok_nonempty 0 "%Y-%m-%d %H:%M:%S" "1970-01-01 00:00:00" (by decide))

/-- C5: the instant one second before the epoch parses to the timestamp `-1`
and is not misclassified as an overflow even though `-1` is the sentinel
(the conversion overwrote `tm_yday`, so the sentinel check does not fire). -/
theorem c5_pre_epoch_parses :
    parse_strftime "1969-12-31 23:59:59" "%Y-%m-%d %H:%M:%S" = .ok (-1) := by decide

/-- C7: text that does not match the format's literal and directive
structure is rejected with `DateTimeParseError`. -/
theorem c7_malformed_rejected :
    parse_strftime "not-a-date" "%Y-%m-%d %H:%M:%S" = .error .DateTimeParseError := by decide

/-- C4 (amended): when both strings are valid (no interior NUL byte) and the
format matches a proper prefix of the text, leaving unconsumed characters,
the parse fails with `DateTimeParseError`. -/
theorem c4_trailing_input_rejected (s f : String)
    (hnf : containsNull f = false) (hns : containsNull s = false)
    (tmv : tm) (rest : List Char)
    (hgo : strptimeGo f.data s.data tm.default = some (tmv, rest)) (hrest : rest ≠ []) :
    parse_strftime s f = .error .DateTimeParseError := by
  rw [parse_strftime, if_neg (by rw [hnf]; exact Bool.false_ne_true),
    if_neg (by rw [hns]; exact Bool.false_ne_true)]
  have hsp : strptime s f tm.default = none := by
    rw [strptime, hgo]
    rcases rest with - | ⟨c, r⟩
    · exact absurd rfl hrest
    · rfl
  rw [hsp]

/-- Closed instance of the amended C4 statement at a concrete input. -/
theorem c4_witness :
    parse_strftime "1970-01-01 00:00:00x" "%Y-%m-%d %H:%M:%S" = .error .DateTimeParseError :=
  c4_trailing_input_rejected "1970-01-01 00:00:00x" "%Y-%m-%d %H:%M:%S" (by decide) (by decide)
    ⟨0, 0, 0, 1, 0, 70, 0, 0, 0, 0⟩ ['x'] (by decide) (by decide)

/-- C4 (counterexample to the claim as stated): with an interior NUL byte in
the text the `CString` conversion fails first, so a format matching a proper
prefix of the text yields `FormatError`, not `DateTimeParseError`. -/
theorem c4_counterexample :
    strptimeGo ("%Y".data) ("1970\u0000".data) tm.default =
      some ({ tm.default with tm_year := 70 }, ['\u0000']) ∧
    parse_strftime "1970\u0000" "%Y" = .error .FormatError ∧
    Error.FormatError ≠ Error.DateTimeParseError :=
  ⟨by decide, by decide, by decide⟩

/-- C2: after a successful `strptime`, the call returns
`TimestampOverflowError` exactly when the conversion run on the structure
with `tm_yday` pre-set to the sentinel `-1` returns `-1` while leaving
`tm_yday` at `-1`; in every other case the converted value — even one
numerically equal to `-1` — is returned as a success. -/
theorem c2_overflow_sentinel (s f : String) (hnf : containsNull f = false)
    (hns : containsNull s = false) (tmv : tm) (hps : strptime s f tm.default = some tmv) :
    (parse_strftime s f = .error .TimestampOverflowError ↔
      ((mktime { tmv with tm_yday := -1 }).2 = -1 ∧
        (mktime { tmv with tm_yday := -1 }).1.tm_yday = -1)) ∧
    (¬((mktime { tmv with tm_yday := -1 }).2 = -1 ∧
        (mktime { tmv with tm_yday := -1 }).1.tm_yday = -1) →
      parse_strftime s f = .ok (mktime { tmv with tm_yday := -1 }).2) := by
  by_cases hC : (mktime { tmv with tm_yday := -1 }).2 = -1 ∧
      (mktime { tmv with tm_yday := -1 }).1.tm_yday = -1
  · have hres : parse_strftime s f = .error .TimestampOverflowError := by
      rw [parse_strftime, if_neg (by rw [hnf]; exact Bool.false_ne_true),
        if_neg (by rw [hns]; exact Bool.false_ne_true), hps]
      show (if (mktime { tmv with tm_yday := -1 }).2 = -1 ∧
          (mktime { tmv with tm_yday := -1 }).1.tm_yday = -1 then
          (.error .TimestampOverflowError : Except Error Int)
        else .ok (mktime { tmv with tm_yday := -1 }).2) = .error .TimestampOverflowError
      rw [if_pos hC]
    exact ⟨iff_of_true hres hC, fun hn => absurd hC hn⟩
  · have hres : parse_strftime s f = .ok (mktime { tmv with tm_yday := -1 }).2 := by
      rw [parse_strftime, if_neg (by rw [hnf]; exact Bool.false_ne_true),
        if_neg (by rw [hns]; exact Bool.false_ne_true), hps]
      show (if (mktime { tmv with tm_yday := -1 }).2 = -1 ∧
          (mktime { tmv with tm_yday := -1 }).1.tm_yday = -1 then
          (.error .TimestampOverflowError : Except Error Int)
        else .ok (mktime { tmv with tm_yday := -1 }).2) =
        .ok (mktime { tmv with tm_yday := -1 }).2
      rw [if_neg hC]
    exact ⟨iff_of_false (by rw [hres]; simp) hC, fun _ => hres⟩

/-- Closed instance of C2 at a concrete input (the pre-epoch instant whose
timestamp is numerically the sentinel). -/
theorem c2_witness :
    (parse_strftime "1969-12-31 23:59:59" "%Y-%m-%d %H:%M:%S" =
        .error .TimestampOverflowError ↔
      ((mktime { (⟨59, 59, 23, 31, 11, 69, 0, 0, 0, 0⟩ : tm) with tm_yday := -1 }).2 = -1 ∧
        (mktime { (⟨59, 59, 23, 31, 11, 69, 0, 0, 0, 0⟩ : tm) with tm_yday := -1 }).1.tm_yday
          = -1)) ∧
    (¬((mktime { (⟨59, 59, 23, 31, 11, 69, 0, 0, 0, 0⟩ : tm) with tm_yday := -1 }).2 = -1 ∧
        (mktime { (⟨59, 59, 23, 31, 11, 69, 0, 0, 0, 0⟩ : tm) with tm_yday := -1 }).1.tm_yday
          = -1) →
      parse_strftime "1969-12-31 23:59:59" "%Y-%m-%d %H:%M:%S" =
        .ok (mktime { (⟨59, 59, 23, 31, 11, 69, 0, 0, 0, 0⟩ : tm) with tm_yday := -1 }).2) :=
  c2_overflow_sentinel "1969-12-31 23:59:59" "%Y-%m-%d %H:%M:%S" (by decide) (by decide)
    ⟨59, 59, 23, 31, 11, 69, 0, 0, 0, 0⟩ (by decide)

/-- C8 (amended): provided the timestamp-to-civil conversion succeeds,
`strftime_format` fails with `FormatError` exactly when the format contains
an interior NUL byte (the model's strings are always valid UTF-8, so the
output-bytes case cannot arise); `parse_strftime` fails with `FormatError`
exactly when the text or the format contains an interior NUL byte. -/
theorem c8_format_error_iff :
    (∀ t f, (gmtime_r t).isSome = true →
      (strftime_format t f = some (.error .FormatError) ↔ containsNull f = true)) ∧
    (∀ s f, parse_strftime s f = .error .FormatError ↔
      (containsNull f = true ∨ containsNull s = true)) := by
  constructor
  · intro t f hg
    cases hgm : gmtime_r t with
    | none => rw [hgm] at hg; exact absurd hg (by simp)
    | some tmv =>
      cases hcn : containsNull f with
      | true => simp [strftime_format, hgm, hcn]
      | false =>
        simp only [strftime_format, hgm, hcn, Bool.false_eq_true, if_false]
        cases hloop : formatLoop f tmv (utf8Len (strftimeChars f.data tmv) + 2)
            (byteLength f) <;> simp [hloop]
  · intro s f
    cases hcf : containsNull f with
    | true => simp [parse_strftime, hcf]
    | false =>
      cases hcs : containsNull s with
      | true => simp [parse_strftime, hcf, hcs]
      | false =>
        simp only [parse_strftime, hcf, hcs, Bool.false_eq_true, if_false]
        cases hsp : strptime s f tm.default with
        | none => simp
        | some tmv =>
          show (if (mktime { tmv with tm_yday := -1 }).2 = -1 ∧
              (mktime { tmv with tm_yday := -1 }).1.tm_yday = -1 then
              (.error .TimestampOverflowError : Except Error Int)
            else .ok (mktime { tmv with tm_yday := -1 }).2) = .error .FormatError ↔
            (False ∨ False)
          split_ifs <;> simp

/-- C8 (counterexample to the claim as stated): when the timestamp-to-civil
conversion fails, it does so before the format string is examined, so a
format with an interior NUL byte yields `TimestampToTmError`, not
`FormatError`. -/
theorem c8_counterexample :
    containsNull "a\u0000b" = true ∧
    strftime_format (2 ^ 62) "a\u0000b" = some (.error .TimestampToTmError) ∧
    Error.TimestampToTmError ≠ Error.FormatError :=
  ⟨by decide, by decide, by decide⟩

/-- The directive characters a format string mentions: every character that
follows a `%`. -/
def formatDirectives : List Char → List Char
  | [] => []
  | c :: rest =>
    if c = '%' then
      match rest with
      | [] => []
      | d :: rest' => d :: formatDirectives rest'
    else formatDirectives rest

theorem formatDirectives_pct (d : Char) (fr : List Char) :
    formatDirectives ('%' :: d :: fr) = d :: formatDirectives fr := by
  conv_lhs => rw [formatDirectives.eq_def]
  rfl

theorem formatDirectives_lit {c : Char} (hc : ¬c = '%') (fr : List Char) :
    formatDirectives (c :: fr) = formatDirectives fr := by
  conv_lhs => rw [formatDirectives.eq_def]
  simp only []
  rw [if_neg hc]

theorem strptimeGo_nil_inv (text : List Char) (init tmv : tm) (rest : List Char)
    (h : strptimeGo [] text init = some (tmv, rest)) : tmv = init := by
  have h' : some (init, text) = some (tmv, rest) := h
  injection h' with h''
  injection h'' with ha hb
  exact ha.symm

/-- The parser writes only the fields whose directives the format mentions:
a successful walk leaves `tm_year` untouched when `%Y` does not occur in the
format, and `tm_mday` untouched when `%d` does not occur. -/
theorem strptimeGo_unmentioned (n : Nat) : ∀ fmt : List Char, fmt.length ≤ n →
    ∀ (text : List Char) (init tmv : tm) (rest : List Char),
    strptimeGo fmt text init = some (tmv, rest) →
    ('Y' ∉ formatDirectives fmt → tmv.tm_year = init.tm_year) ∧
    ('d' ∉ formatDirectives fmt → tmv.tm_mday = init.tm_mday) := by
  induction n with
  | zero =>
    intro fmt hlen text init tmv rest h
    have hfmt : fmt = [] := List.eq_nil_of_length_eq_zero (by omega)
    subst hfmt
    rw [strptimeGo_nil_inv text init tmv rest h]
    exact ⟨fun _ => rfl, fun _ => rfl⟩
  | succ n ih =>
    intro fmt hlen text init tmv rest h
    rcases fmt with - | ⟨c, fr⟩
    · rw [strptimeGo_nil_inv text init tmv rest h]
      exact ⟨fun _ => rfl, fun _ => rfl⟩
    have hfr : fr.length ≤ n := by simp only [List.length_cons] at hlen; omega
    rw [strptimeGo.eq_def] at h
    simp only [] at h
    by_cases hc : c = '%'
    · subst hc
      rw [if_pos rfl] at h
      rcases fr with - | ⟨d, fr'⟩
      · rcases text with - | ⟨t, tr⟩
        · exact Option.noConfusion h
        · simp only [] at h
          split at h
          · injection h with h'
            injection h' with ha hb
            subst ha
            exact ⟨fun _ => rfl, fun _ => rfl⟩
          · exact Option.noConfusion h
      · have hfr' : fr'.length ≤ n := by
          simp only [List.length_cons] at hfr; omega
        simp only [] at h
        rw [formatDirectives_pct]
        by_cases hdY : d = 'Y'
        · subst hdY
          rw [if_pos rfl] at h
          split at h
          · exact Option.noConfusion h
          · obtain ⟨iY, iD⟩ := ih fr' hfr' _ _ _ _ h
            refine ⟨fun hY => absurd (List.mem_cons_self _ _) hY, fun hd => ?_⟩
            exact iD fun hm => hd (List.mem_cons_of_mem _ hm)
        · rw [if_neg hdY] at h
          by_cases hdm : d = 'm'
          · subst hdm
            rw [if_pos rfl] at h
            split at h
            · exact Option.noConfusion h
            · split at h
              · obtain ⟨iY, iD⟩ := ih fr' hfr' _ _ _ _ h
                exact ⟨fun hY => iY fun hm => hY (List.mem_cons_of_mem _ hm),
                  fun hd => iD fun hm => hd (List.mem_cons_of_mem _ hm)⟩
              · exact Option.noConfusion h
          · rw [if_neg hdm] at h
            by_cases hdd : d = 'd'
            · subst hdd
              rw [if_pos rfl] at h
              split at h
              · exact Option.noConfusion h
              · split at h
                · obtain ⟨iY, iD⟩ := ih fr' hfr' _ _ _ _ h
                  exact ⟨fun hY => iY fun hm => hY (List.mem_cons_of_mem _ hm),
                    fun hd => absurd (List.mem_cons_self _ _) hd⟩
                · exact Option.noConfusion h
            · rw [if_neg hdd] at h
              by_cases hdH : d = 'H'
              · subst hdH
                rw [if_pos rfl] at h
                split at h
                · exact Option.noConfusion h
                · split at h
                  · obtain ⟨iY, iD⟩ := ih fr' hfr' _ _ _ _ h
                    exact ⟨fun hY => iY fun hm => hY (List.mem_cons_of_mem _ hm),
                      fun hd => iD fun hm => hd (List.mem_cons_of_mem _ hm)⟩
                  · exact Option.noConfusion h
              · rw [if_neg hdH] at h
                by_cases hdM : d = 'M'
                · subst hdM
                  rw [if_pos rfl] at h
                  split at h
                  · exact Option.noConfusion h
                  · split at h
                    · obtain ⟨iY, iD⟩ := ih fr' hfr' _ _ _ _ h
                      exact ⟨fun hY => iY fun hm => hY (List.mem_cons_of_mem _ hm),
                        fun hd => iD fun hm => hd (List.mem_cons_of_mem _ hm)⟩
                    · exact Option.noConfusion h
                · rw [if_neg hdM] at h
                  by_cases hdS : d = 'S'
                  · subst hdS
                    rw [if_pos rfl] at h
                    split at h
                    · exact Option.noConfusion h
                    · split at h
                      · obtain ⟨iY, iD⟩ := ih fr' hfr' _ _ _ _ h
                        exact ⟨fun hY => iY fun hm => hY (List.mem_cons_of_mem _ hm),
                          fun hd => iD fun hm => hd (List.mem_cons_of_mem _ hm)⟩
                      · exact Option.noConfusion h
                  · rw [if_neg hdS] at h
                    by_cases hdp : d = '%'
                    · subst hdp
                      rw [if_pos rfl] at h
                      rcases text with - | ⟨t, tr⟩
                      · exact Option.noConfusion h
                      · simp only [] at h
                        split at h
                        · obtain ⟨iY, iD⟩ := ih fr' hfr' _ _ _ _ h
                          exact ⟨fun hY => iY fun hm => hY (List.mem_cons_of_mem _ hm),
                            fun hd => iD fun hm => hd (List.mem_cons_of_mem _ hm)⟩
                        · exact Option.noConfusion h
                    · rw [if_neg hdp] at h
                      exact Option.noConfusion h
    · rw [if_neg hc] at h
      rw [formatDirectives_lit hc]
      rcases text with - | ⟨t, tr⟩
      · exact Option.noConfusion h
      · simp only [] at h
        split at h
        · exact ih fr hfr _ _ _ _ h
        · exact Option.noConfusion h

/-- C3 (amended): fields not mentioned by the format keep the all-zero
values of `tm::default()` with which the caller initializes the structure:
an unmentioned year defaults to the 1900 baseline (`tm_year = 0`), but an
unmentioned day-of-month defaults to `0` — not `1` — which the civil-to-epoch
normalization then interprets as the last day of the preceding month. -/
theorem c3_unmentioned_fields_zero (s f : String) (tmv : tm)
    (hps : strptime s f tm.default = some tmv) :
    ('Y' ∉ formatDirectives f.data → tmv.tm_year = 0) ∧
    ('d' ∉ formatDirectives f.data → tmv.tm_mday = 0) := by
  rw [strptime] at hps
  cases hgo : strptimeGo f.data s.data tm.default with
  | none => rw [hgo] at hps; exact Option.noConfusion hps
  | some p =>
    rw [hgo] at hps
    rcases p with ⟨tmv', rest⟩
    rcases rest with - | ⟨r, rs⟩
    · have htm : tmv' = tmv := by
        have h' : some tmv' = some tmv := hps
        exact Option.some_inj.mp h'
      subst htm
      exact strptimeGo_unmentioned f.data.length f.data le_rfl s.data tm.default tmv' [] hgo
    · exact Option.noConfusion hps

/-- Closed instance of the amended C3 statement at a concrete input: a
format mentioning neither the year nor the day-of-month leaves both at 0. -/
theorem c3_witness :
    ('Y' ∉ formatDirectives ("%H:%M:%S" : String).data →
      (⟨0, 0, 10, 0, 0, 0, 0, 0, 0, 0⟩ : tm).tm_year = 0) ∧
    ('d' ∉ formatDirectives ("%H:%M:%S" : String).data →
      (⟨0, 0, 10, 0, 0, 0, 0, 0, 0, 0⟩ : tm).tm_mday = 0) :=
  c3_unmentioned_fields_zero "10:00:00" "%H:%M:%S" ⟨0, 0, 10, 0, 0, 0, 0, 0, 0, 0⟩ (by decide)

/-- C3 (counterexample to the claim as stated): parsing a time-only format
lands on the last day of the preceding month (1899-12-31, day-of-month
defaulted to 0), not on 1900-01-01 as a day-of-month default of 1 would
give. -/
theorem c3_counterexample :
    parse_strftime "10:00:00" "%H:%M:%S" = .ok (-2209039200) ∧
    (-2209039200 : Int) = daysFromCivil 1899 12 31 * 86400 + 10 * 3600 ∧
    daysFromCivil 1900 1 1 * 86400 + 10 * 3600 = -2208952800 ∧
    (-2209039200 : Int) ≠ -2208952800 :=
  ⟨by decide, by decide, by decide, by decide⟩

/-- Modelled from the spec (§5, §6): the ambient process state a platform
time routine could in principle consult — the process time zone.  The spec
fixes the engine to UTC and forbids reading the environment, so the modelled
platform routines take no environment at all; these wrappers thread an
explicit environment through the public operations to state that the results
do not depend on it. -/
structure Env where
  tz_offset : Int

/-- The public formatting operation as invoked by a process with ambient
environment `env` (which, per the spec, the engine never reads). -/
def strftime_formatWithEnv (_env : Env) (timestamp : Int) (format : String) :
    Option (Except Error String) :=
  strftime_format timestamp format

/-- The public parsing operation as invoked by a process with ambient
environment `env` (which, per the spec, the engine never reads). -/
def parse_strftimeWithEnv (_env : Env) (date_time format : String) : Except Error Int :=
  parse_strftime date_time format

/-- C9: both public operations are deterministic pure functions of their
explicit arguments — two calls with the same arguments agree whatever the
ambient process environment (time zone) of each call. -/
theorem c9_deterministic :
    (∀ e₁ e₂ t f, strftime_formatWithEnv e₁ t f = strftime_formatWithEnv e₂ t f) ∧
    (∀ e₁ e₂ s f, parse_strftimeWithEnv e₁ s f = parse_strftimeWithEnv e₂ s f) :=
  ⟨fun _ _ _ _ => rfl, fun _ _ _ _ => rfl⟩

/-- Closed instance of the amended C1 statement at the epoch. -/
theorem c1_witness : parse_strftime "1970-01-01 00:00:00" "%Y-%m-%d %H:%M:%S" = .ok 0 :=
  c1_round_trip_nonneg_year 0 ⟨0, 0, 0, 1, 0, 70, 4, 0, 0, 0⟩ (by decide) (by decide)
    (by decide) (by decide) "1970-01-01 00:00:00" (by decide)

/-- C1 (counterexample to the claim as stated): the last second of the year
−1 has a civil decomposition that fits the field widths, but its rendered
text starts with a minus sign, which the parser's digit-run `%Y` rejects, so
the round trip fails with `DateTimeParseError` instead of recovering the
timestamp. -/
theorem c1_counterexample :
    (gmtime_r (-62167219201)).isSome = true ∧
    strftime_format (-62167219201) "%Y-%m-%d %H:%M:%S" =
      some (.ok "-0001-12-31 23:59:59") ∧
    parse_strftime "-0001-12-31 23:59:59" "%Y-%m-%d %H:%M:%S" =
      .error .DateTimeParseError ∧
    (Except.error Error.DateTimeParseError : Except Error Int) ≠ .ok (-62167219201) :=
  ⟨by decide, by decide, by decide, by decide⟩

end StrftimeWrapper

